import Mathlib

set_option maxRecDepth 100000

/- Shallow embedding of the color conversion, validation, harmony-generation,
adjustment and response-parsing routines of the Color-Palette-Generator
repository.  Python floats are modelled as exact rationals, Python ints as
Lean integers or naturals, and Python functions that may raise return Option
(none models a raised exception).  CPython string/number semantics that the
source relies on (str.strip, int(s, 16), the 02x format, str.upper on ASCII,
re.findall over a fixed-width pattern) are modelled for the ASCII range. -/

/-- Whitespace characters recognised by CPython str.strip() and by int()
parsing, restricted to the latin-1 range (space, tab, newline, carriage
return, vertical tab, form feed, the file separators 28-31, and NEL 133). -/
def isPySpace (c : Char) : Bool :=
  c.toNat = 32 || c.toNat = 9 || c.toNat = 10 || c.toNat = 13 || c.toNat = 11 ||
  c.toNat = 12 || (28 ≤ c.toNat && c.toNat ≤ 31) || c.toNat = 133

/-- Python str.strip(): drop leading and trailing whitespace. -/
def pyStrip (l : List Char) : List Char :=
  ((l.dropWhile isPySpace).reverse.dropWhile isPySpace).reverse

/-- Python str.strip() on a String. -/
def pyStripStr (s : String) : String := (pyStrip s.toList).asString

/-- Value of one hexadecimal digit character, exactly the digits accepted by
CPython int(s, 16) and by the regex class 0-9A-Fa-f. -/
def hexVal? (c : Char) : Option ℕ :=
  if 48 ≤ c.toNat ∧ c.toNat ≤ 57 then some (c.toNat - 48)
  else if 97 ≤ c.toNat ∧ c.toNat ≤ 102 then some (c.toNat - 87)
  else if 65 ≤ c.toNat ∧ c.toNat ≤ 70 then some (c.toNat - 55)
  else none

/-- Membership in the hexadecimal-digit character class. -/
def isHexDigitChar (c : Char) : Bool := (hexVal? c).isSome

/-- Remaining digits of a hex literal after the first digit, with CPython's
underscore rule: a single underscore may appear between two digits. -/
def hexDigitsVal? : ℕ → List Char → Option ℕ
  | acc, [] => some acc
  | acc, c :: rest =>
    if c = '_' then
      match rest with
      | [] => none
      | d :: rs =>
        match hexVal? d with
        | some v => hexDigitsVal? (16 * acc + v) rs
        | none => none
    else
      match hexVal? c with
      | some v => hexDigitsVal? (16 * acc + v) rest
      | none => none

/-- A full run of hex digits (nonempty, must start with a digit). -/
def pyHexDigits? : List Char → Option ℕ
  | [] => none
  | c :: rest =>
    match hexVal? c with
    | some v => hexDigitsVal? v rest
    | none => none

/-- Digits of CPython int(s, 16) after the optional sign: an optional 0x or 0X
prefix (which may be followed by one underscore) and then hex digits. -/
def pyAfterSign? : List Char → Option ℕ
  | c0 :: c1 :: rest =>
    if c0 = '0' ∧ (c1 = 'x' ∨ c1 = 'X') then
      match rest with
      | '_' :: rs => pyHexDigits? rs
      | rs => pyHexDigits? rs
    else pyHexDigits? (c0 :: c1 :: rest)
  | l1 => pyHexDigits? l1

/-- Sign handling of CPython int(s, 16), applied after stripping. -/
def pyInt16Core : List Char → Option ℤ
  | [] => none
  | c :: rest =>
    if c = '+' then (pyAfterSign? rest).map (fun n => (n : ℤ))
    else if c = '-' then (pyAfterSign? rest).map (fun n => -(n : ℤ))
    else (pyAfterSign? (c :: rest)).map (fun n => (n : ℤ))

/-- CPython int(s, 16): surrounding whitespace is stripped, an optional sign,
an optional 0x prefix, hex digits with optional single underscores between
them.  Returns none where CPython raises ValueError. -/
def pyInt16? (l : List Char) : Option ℤ := pyInt16Core (pyStrip l)

/-- Lowercase hexadecimal digit character for a value below 16. -/
def toHexDigit (n : ℕ) : Char :=
  if n < 10 then Char.ofNat (48 + n) else Char.ofNat (87 + n)

/-- Hexadecimal digits of a natural number, most significant first; written
with explicit fuel so that it is structurally recursive (fuel n + 1 always
suffices since the argument shrinks by a factor 16 every step). -/
def hexDigitsAux : ℕ → ℕ → List Char
  | 0, _ => []
  | fuel + 1, n =>
    if n < 16 then [toHexDigit n]
    else hexDigitsAux fuel (n / 16) ++ [toHexDigit (n % 16)]

/-- Hexadecimal digits of a natural number, lowercase, no leading zeros. -/
def hexDigitsN (n : ℕ) : List Char := hexDigitsAux (n + 1) n

/-- Python 02x string formatting of an integer: lowercase hex, zero padded to
an overall width of two characters (the sign counts towards the width). -/
def format02x (n : ℤ) : List Char :=
  if n < 0 then
    '-' :: (List.replicate (1 - (hexDigitsN (-n).toNat).length) '0' ++ hexDigitsN (-n).toNat)
  else
    List.replicate (2 - (hexDigitsN n.toNat).length) '0' ++ hexDigitsN n.toNat

/-- rgb_to_hex of CustomHarmonyManager (custom_harmony.py line 119), identical
to ImageRecolorer.rgb_to_hex (image_recolorer.py line 21): a hash sign followed
by the three channels in 02x format. -/
def rgb_to_hex (rgb : ℤ × ℤ × ℤ) : String :=
  (('#' :: format02x rgb.1) ++ format02x rgb.2.1 ++ format02x rgb.2.2).asString

/-- Python slice l a:b on a character list. -/
def pySlice (l : List Char) (a b : ℕ) : List Char := (l.drop a).take (b - a)

/-- hex_to_rgb of CustomHarmonyManager (custom_harmony.py line 113), identical
to ImageRecolorer.hex_to_rgb and preset_browser hex_to_rgb: strip leading hash
signs, then parse the slices 0:2, 2:4 and 4:6 with int(-, 16).  A slice on
which int raises ValueError makes the whole call raise, modelled by none. -/
def hex_to_rgb (s : String) : Option (ℤ × ℤ × ℤ) :=
  let body := s.toList.dropWhile (fun c => c = '#')
  match pyInt16? (pySlice body 0 2), pyInt16? (pySlice body 2 4), pyInt16? (pySlice body 4 6) with
  | some r, some g, some b => some (r, g, b)
  | _, _, _ => none

theorem toList_asString (l : List Char) : (l.asString).toList = l := rfl

theorem hexVal_toHexDigit : ∀ m < 16, hexVal? (toHexDigit m) = some m := by decide

theorem toHexDigit_ne_hash : ∀ m < 16, toHexDigit m ≠ '#' := by decide

theorem format02x_byte :
    ∀ n < 256, format02x ((n : ℕ) : ℤ) = [toHexDigit (n / 16), toHexDigit (n % 16)] := by decide

theorem pyInt16_pair :
    ∀ a < 16, ∀ b < 16,
      pyInt16? [toHexDigit a, toHexDigit b] = some ((16 * a + b : ℕ) : ℤ) := by decide

/-- C1: for every Color c with each channel an integer in 0..255, converting
the RGB triple to its hex string with rgb_to_hex and parsing it back with
hex_to_rgb yields the original triple exactly. -/
theorem hex_roundtrip (r g b : ℤ)
    (hr : 0 ≤ r ∧ r ≤ 255) (hg : 0 ≤ g ∧ g ≤ 255) (hb : 0 ≤ b ∧ b ≤ 255) :
    hex_to_rgb (rgb_to_hex (r, g, b)) = some (r, g, b) := by
  obtain ⟨hr0, hr1⟩ := hr
  obtain ⟨hg0, hg1⟩ := hg
  obtain ⟨hb0, hb1⟩ := hb
  have er : r = ((r.toNat : ℕ) : ℤ) := (Int.toNat_of_nonneg hr0).symm
  have eg : g = ((g.toNat : ℕ) : ℤ) := (Int.toNat_of_nonneg hg0).symm
  have eb : b = ((b.toNat : ℕ) : ℤ) := (Int.toNat_of_nonneg hb0).symm
  have hrn : r.toNat < 256 := by omega
  have hgn : g.toNat < 256 := by omega
  have hbn : b.toNat < 256 := by omega
  rw [er, eg, eb]
  unfold rgb_to_hex
  rw [format02x_byte r.toNat hrn, format02x_byte g.toNat hgn, format02x_byte b.toNat hbn]
  unfold hex_to_rgb
  rw [toList_asString]
  have hne : (toHexDigit (r.toNat / 16) = '#') = False := by
    simpa using toHexDigit_ne_hash (r.toNat / 16) (by omega)
  simp only [List.cons_append, List.nil_append, List.dropWhile, decide_eq_true_eq, hne,
    decide_False, Bool.false_eq_true, if_false, if_true, decide_True]
  simp only [pySlice, List.drop, List.take]
  rw [pyInt16_pair (r.toNat / 16) (by omega) (r.toNat % 16) (by omega),
    pyInt16_pair (g.toNat / 16) (by omega) (g.toNat % 16) (by omega),
    pyInt16_pair (b.toNat / 16) (by omega) (b.toNat % 16) (by omega)]
  have dr : 16 * (r.toNat / 16) + r.toNat % 16 = r.toNat := by omega
  have dg : 16 * (g.toNat / 16) + g.toNat % 16 = g.toNat := by omega
  have db : 16 * (b.toNat / 16) + b.toNat % 16 = b.toNat := by omega
  rw [dr, dg, db]

/-- C1 witness: the round trip at the concrete color (52, 152, 219). -/
theorem hex_roundtrip_witness :
    ((0 ≤ (52 : ℤ) ∧ (52 : ℤ) ≤ 255) ∧ (0 ≤ (152 : ℤ) ∧ (152 : ℤ) ≤ 255) ∧
      (0 ≤ (219 : ℤ) ∧ (219 : ℤ) ≤ 255)) ∧
    hex_to_rgb (rgb_to_hex (52, 152, 219)) = some (52, 152, 219) :=
  ⟨⟨⟨by decide, by decide⟩, ⟨by decide, by decide⟩, ⟨by decide, by decide⟩⟩,
    hex_roundtrip 52 152 219 ⟨by decide, by decide⟩ ⟨by decide, by decide⟩ ⟨by decide, by decide⟩⟩

/-- Python float modulo x % m (the source uses it only with m = 1.0). -/
def pymod (x m : ℚ) : ℚ := x - m * ⌊x / m⌋

/-- Python int() applied to a float: truncation toward zero. -/
def pyint (q : ℚ) : ℤ := if 0 ≤ q then ⌊q⌋ else ⌈q⌉

/-- colorsys.rgb_to_hsv, transcribed from the CPython standard library, over
exact rationals.  Channels are given in 0..1. -/
def rgb_to_hsv (r g b : ℚ) : ℚ × ℚ × ℚ :=
  let maxc := max r (max g b)
  let minc := min r (min g b)
  let v := maxc
  if minc = maxc then (0, 0, v)
  else
    let rangec := maxc - minc
    let s := rangec / maxc
    let rc := (maxc - r) / rangec
    let gc := (maxc - g) / rangec
    let bc := (maxc - b) / rangec
    let h := if r = maxc then bc - gc else if g = maxc then 2 + rc - bc else 4 + gc - rc
    (pymod (h / 6) 1, s, v)

/-- colorsys.hsv_to_rgb, transcribed from the CPython standard library, over
exact rationals. -/
def hsv_to_rgb (h s v : ℚ) : ℚ × ℚ × ℚ :=
  if s = 0 then (v, v, v)
  else
    let i0 := pyint (h * 6)
    let f := h * 6 - (i0 : ℚ)
    let p := v * (1 - s)
    let q := v * (1 - s * f)
    let t := v * (1 - s * (1 - f))
    let i := i0 % 6
    if i = 0 then (v, t, p)
    else if i = 1 then (q, v, p)
    else if i = 2 then (p, v, q)
    else if i = 3 then (q, p, v)
    else if i = 4 then (p, t, v)
    else (v, q, t)

/-- One rule of a custom harmony (custom_harmony.py apply_harmony).  The rules
come from JSON dictionaries, so the numeric fields may be absent (Option, with
the dict defaults applied at use sites) and a rule of an unrecognised type is
silently skipped by the loop. -/
inductive HarmonyRule where
  | base : HarmonyRule
  | hue_offset (value : Option ℚ) : HarmonyRule
  | complementary (angle : Option ℚ) : HarmonyRule
  | saturation (value : Option ℚ) : HarmonyRule
  | brightness (value : Option ℚ) : HarmonyRule
  | fixed (color : Option String) : HarmonyRule
  | unknown : HarmonyRule

/-- HSV triple passed to hsv_to_rgb by the hue_offset branch of apply_harmony
(custom_harmony.py lines 78-83): new hue is (h + value / 360) % 1.0, the
saturation and value are passed through unchanged. -/
def hueOffsetHSV (h s v value : ℚ) : ℚ × ℚ × ℚ := (pymod (h + value / 360) 1, s, v)

/-- HSV triple passed to hsv_to_rgb by the complementary branch of
apply_harmony (custom_harmony.py lines 85-90); the angle defaults to 180. -/
def complementaryHSV (h s v : ℚ) (angle : Option ℚ) : ℚ × ℚ × ℚ :=
  (pymod (h + (angle.getD 180) / 360) 1, s, v)

/-- HSV triple passed to hsv_to_rgb by the saturation branch of apply_harmony
(custom_harmony.py lines 92-97): the offset is value / 100 and the new
saturation is clamped with max(0, min(1, s + offset)). -/
def saturationHSV (h s v value : ℚ) : ℚ × ℚ × ℚ := (h, max 0 (min 1 (s + value / 100)), v)

/-- HSV triple passed to hsv_to_rgb by the brightness branch of apply_harmony
(custom_harmony.py lines 99-104). -/
def brightnessHSV (h s v value : ℚ) : ℚ × ℚ × ℚ := (h, s, max 0 (min 1 (v + value / 100)))

/-- Convert an HSV triple to a hex string the way apply_harmony does:
hsv_to_rgb, int(c * 255) on each channel, then rgb_to_hex. -/
def hsvColorHex (h s v : ℚ) : String :=
  let rgb := hsv_to_rgb h s v
  rgb_to_hex (pyint (rgb.1 * 255), pyint (rgb.2.1 * 255), pyint (rgb.2.2 * 255))

/-- One iteration of the rule loop of apply_harmony: the color appended for a
rule, or none when the rule type is unrecognised and nothing is appended. -/
def applyRule? (base : String) (h s v : ℚ) : HarmonyRule → Option String
  | HarmonyRule.base => some base
  | HarmonyRule.hue_offset value =>
    let hsv := hueOffsetHSV h s v (value.getD 0)
    some (hsvColorHex hsv.1 hsv.2.1 hsv.2.2)
  | HarmonyRule.complementary angle =>
    let hsv := complementaryHSV h s v angle
    some (hsvColorHex hsv.1 hsv.2.1 hsv.2.2)
  | HarmonyRule.saturation value =>
    let hsv := saturationHSV h s v (value.getD 0)
    some (hsvColorHex hsv.1 hsv.2.1 hsv.2.2)
  | HarmonyRule.brightness value =>
    let hsv := brightnessHSV h s v (value.getD 0)
    some (hsvColorHex hsv.1 hsv.2.1 hsv.2.2)
  | HarmonyRule.fixed color => some (color.getD ("#FFFFFF"))
  | HarmonyRule.unknown => none

/-- CustomHarmonyManager.apply_harmony (custom_harmony.py lines 58-111): an
out-of-range index returns the empty list; otherwise the base hex color is
parsed (none models the ValueError raised on a malformed base), converted to
HSV with channels divided by 255, and each rule contributes its color. -/
def apply_harmony (harmonies : List (List HarmonyRule)) (base_color_hex : String)
    (harmony_index : ℤ) : Option (List String) :=
  if 0 ≤ harmony_index ∧ harmony_index < harmonies.length then
    match hex_to_rgb base_color_hex with
    | none => none
    | some rgb =>
      let hsv := rgb_to_hsv ((rgb.1 : ℚ) / 255) ((rgb.2.1 : ℚ) / 255) ((rgb.2.2 : ℚ) / 255)
      some ((harmonies.getD harmony_index.toNat []).filterMap
        (applyRule? base_color_hex hsv.1 hsv.2.1 hsv.2.2))
  else some []

theorem pymod_one (x : ℚ) : pymod x 1 = Int.fract x := by
  unfold pymod Int.fract
  rw [div_one]
  ring

/-- C2: the hue_offset rule with offset d maps base hue h to (h + d / 360)
wrapped modulo 1, the complementary rule with angle a to (h + a / 360) wrapped
modulo 1 (default angle 180, giving h + 1/2), the wrapped hue always lies in
the interval from 0 inclusive to 1 exclusive, and saturation and value are
passed through unchanged. -/
theorem hue_rotation_spec (h s v d : ℚ) (a : Option ℚ) :
    (hueOffsetHSV h s v d).1 = Int.fract (h + d / 360) ∧
    0 ≤ (hueOffsetHSV h s v d).1 ∧ (hueOffsetHSV h s v d).1 < 1 ∧
    (hueOffsetHSV h s v d).2.1 = s ∧ (hueOffsetHSV h s v d).2.2 = v ∧
    (complementaryHSV h s v a).1 = Int.fract (h + (a.getD 180) / 360) ∧
    0 ≤ (complementaryHSV h s v a).1 ∧ (complementaryHSV h s v a).1 < 1 ∧
    (complementaryHSV h s v a).2.1 = s ∧ (complementaryHSV h s v a).2.2 = v ∧
    (complementaryHSV h s v none).1 = Int.fract (h + 1 / 2) := by
  refine ⟨pymod_one _, ?_, ?_, rfl, rfl, pymod_one _, ?_, ?_, rfl, rfl, ?_⟩
  · rw [show (hueOffsetHSV h s v d).1 = pymod (h + d / 360) 1 from rfl, pymod_one]
    exact Int.fract_nonneg _
  · rw [show (hueOffsetHSV h s v d).1 = pymod (h + d / 360) 1 from rfl, pymod_one]
    exact Int.fract_lt_one _
  · rw [show (complementaryHSV h s v a).1 = pymod (h + (a.getD 180) / 360) 1 from rfl, pymod_one]
    exact Int.fract_nonneg _
  · rw [show (complementaryHSV h s v a).1 = pymod (h + (a.getD 180) / 360) 1 from rfl, pymod_one]
    exact Int.fract_lt_one _
  · rw [show (complementaryHSV h s v none).1 = pymod (h + (180 : ℚ) / 360) 1 from rfl, pymod_one]
    norm_num

/-- C3: the saturation rule with offset value sets saturation to
max(0, min(1, s + value / 100)) which always lies in 0..1, leaving hue and
value unchanged, and the brightness rule does the same to the value
component, leaving hue and saturation unchanged. -/
theorem saturation_brightness_clamp (h s v value : ℚ) :
    (saturationHSV h s v value).2.1 = max 0 (min 1 (s + value / 100)) ∧
    0 ≤ (saturationHSV h s v value).2.1 ∧ (saturationHSV h s v value).2.1 ≤ 1 ∧
    (saturationHSV h s v value).1 = h ∧ (saturationHSV h s v value).2.2 = v ∧
    (brightnessHSV h s v value).2.2 = max 0 (min 1 (v + value / 100)) ∧
    0 ≤ (brightnessHSV h s v value).2.2 ∧ (brightnessHSV h s v value).2.2 ≤ 1 ∧
    (brightnessHSV h s v value).1 = h ∧ (brightnessHSV h s v value).2.1 = s := by
  refine ⟨rfl, le_max_left _ _, max_le (by norm_num) (min_le_left _ _), rfl, rfl,
    rfl, le_max_left _ _, max_le (by norm_num) (min_le_left _ _), rfl, rfl⟩

/-- C6: apply_harmony is fully deterministic: for a fixed stored harmony list,
base color and index, any two invocations return the same result. -/
theorem apply_harmony_deterministic (harmonies : List (List HarmonyRule))
    (base : String) (idx : ℤ) (out1 out2 : Option (List String))
    (h1 : apply_harmony harmonies base idx = out1)
    (h2 : apply_harmony harmonies base idx = out2) : out1 = out2 :=
  h1.symm.trans h2

/-- C6 witness: two invocations at a concrete base color and rule list. -/
theorem apply_harmony_deterministic_witness :
    apply_harmony [[HarmonyRule.base, HarmonyRule.complementary none]] ("#3498db") 0 =
      apply_harmony [[HarmonyRule.base, HarmonyRule.complementary none]] ("#3498db") 0 :=
  apply_harmony_deterministic _ _ _ _ _ rfl rfl


/-- Body check of the spec-side strict predicate for claim C4. -/
def strictHexCore : List Char → Bool
  | c :: body =>
    (c = '#') && ((body.length = 3) || (body.length = 6)) && body.all isHexDigitChar
  | [] => false

/-- Modelled from the spec sentence for claim C4 (comparison predicate, not a
source function): a string is a strict hex color when it starts with a hash
sign and its body is exactly 3 or 6 hexadecimal digits. -/
def strictHexColor (s : String) : Bool := strictHexCore s.toList

/-- Check applied by validate_hex_color after stripping: the text must start
with a hash sign and its remainder must have length 3 or 6 and be accepted by
int(-, 16). -/
def validateCore : List Char → Bool
  | c :: body => (c = '#') && ((body.length = 3) || (body.length = 6)) && (pyInt16? body).isSome
  | [] => false

/-- PaletteApp.validate_hex_color (main.py lines 440-454): the argument is
stripped, then checked with validateCore.  Non-string inputs, rejected by the
isinstance check, are outside this String model. -/
def validate_hex_color (hex_code : String) : Bool := validateCore (pyStrip hex_code.toList)

/-- Hex branch of PaletteApp.generate (main.py lines 2607-2617): the entry
text is stripped; if validate_hex_color rejects it, a ValueError is surfaced
as an input error (none) and palette generation is not invoked; otherwise
generation proceeds with the stripped hex code (some). -/
def generate_hex_branch (entry : String) : Option String :=
  let hex_code := pyStripStr entry
  if validate_hex_color hex_code then some hex_code else none

theorem char_ne_of_toNat_ne {c d : Char} (h : c.toNat ≠ d.toNat) : c ≠ d :=
  fun he => h (by rw [he])

theorem isHexDigitChar_toNat {c : Char} (h : isHexDigitChar c = true) :
    (48 ≤ c.toNat ∧ c.toNat ≤ 57) ∨ (97 ≤ c.toNat ∧ c.toNat ≤ 102) ∨
      (65 ≤ c.toNat ∧ c.toNat ≤ 70) := by
  unfold isHexDigitChar hexVal? at h
  split at h
  · exact Or.inl (by assumption)
  · split at h
    · exact Or.inr (Or.inl (by assumption))
    · split at h
      · exact Or.inr (Or.inr (by assumption))
      · simp at h

theorem hexDigit_not_space {c : Char} (h : isHexDigitChar c = true) : isPySpace c = false := by
  have hr := isHexDigitChar_toNat h
  unfold isPySpace
  simp only [Bool.or_eq_false_iff, Bool.and_eq_false_iff, decide_eq_false_iff_not]
  omega

theorem hexDigitsVal_all (rest : List Char) : ∀ acc : ℕ,
    (∀ c ∈ rest, isHexDigitChar c = true) → (hexDigitsVal? acc rest).isSome = true := by
  induction rest with
  | nil => intro acc _; rfl
  | cons c rs ih =>
    intro acc h
    have hc : isHexDigitChar c = true := h c (by simp)
    have hcu : c ≠ '_' :=
      char_ne_of_toNat_ne (by have := isHexDigitChar_toNat hc; show c.toNat ≠ 95; omega)
    obtain ⟨v, hv⟩ := Option.isSome_iff_exists.mp hc
    unfold hexDigitsVal?
    rw [if_neg hcu, hv]
    exact ih _ (fun d hd => h d (by simp [hd]))

theorem pyHexDigits_all (l : List Char) (hne : l ≠ [])
    (h : ∀ c ∈ l, isHexDigitChar c = true) : (pyHexDigits? l).isSome = true := by
  cases l with
  | nil => exact absurd rfl hne
  | cons c rest =>
    have hc : isHexDigitChar c = true := h c (by simp)
    obtain ⟨v, hv⟩ := Option.isSome_iff_exists.mp hc
    simp only [pyHexDigits?]
    rw [hv]
    exact hexDigitsVal_all rest v (fun d hd => h d (by simp [hd]))

theorem pyAfterSign_all (l : List Char) (hne : l ≠ [])
    (h : ∀ c ∈ l, isHexDigitChar c = true) : (pyAfterSign? l).isSome = true := by
  cases l with
  | nil => exact absurd rfl hne
  | cons c0 rest0 =>
    cases rest0 with
    | nil => exact pyHexDigits_all [c0] (by simp) h
    | cons c1 rest =>
      have hc1 : isHexDigitChar c1 = true := h c1 (by simp)
      have hx : c1 ≠ 'x' :=
        char_ne_of_toNat_ne (by have := isHexDigitChar_toNat hc1; show c1.toNat ≠ 120; omega)
      have hX : c1 ≠ 'X' :=
        char_ne_of_toNat_ne (by have := isHexDigitChar_toNat hc1; show c1.toNat ≠ 88; omega)
      simp only [pyAfterSign?]
      rw [if_neg (fun hand => (hand.2.elim hx hX : False))]
      exact pyHexDigits_all _ (by simp) h

theorem dropWhile_of_all_neg {p : Char → Bool} (l : List Char)
    (h : ∀ c ∈ l, p c = false) : l.dropWhile p = l := by
  cases l with
  | nil => rfl
  | cons c rest => simp [List.dropWhile, h c (by simp)]

theorem pyStrip_of_noSpace (l : List Char) (h : ∀ c ∈ l, isPySpace c = false) :
    pyStrip l = l := by
  unfold pyStrip
  rw [dropWhile_of_all_neg l h,
    dropWhile_of_all_neg l.reverse (fun c hc => h c (List.mem_reverse.mp hc)),
    List.reverse_reverse]

theorem pyInt16_all (l : List Char) (hne : l ≠ [])
    (h : ∀ c ∈ l, isHexDigitChar c = true) : (pyInt16? l).isSome = true := by
  have hs : pyStrip l = l := pyStrip_of_noSpace l (fun c hc => hexDigit_not_space (h c hc))
  unfold pyInt16?
  rw [hs]
  cases l with
  | nil => exact absurd rfl hne
  | cons c rest =>
    have hc : isHexDigitChar c = true := h c (by simp)
    have hplus : c ≠ '+' :=
      char_ne_of_toNat_ne (by have := isHexDigitChar_toNat hc; show c.toNat ≠ 43; omega)
    have hminus : c ≠ '-' :=
      char_ne_of_toNat_ne (by have := isHexDigitChar_toNat hc; show c.toNat ≠ 45; omega)
    simp only [pyInt16Core]
    rw [if_neg hplus, if_neg hminus]
    obtain ⟨v, hv⟩ := Option.isSome_iff_exists.mp (pyAfterSign_all (c :: rest) (by simp) h)
    rw [hv]
    rfl

/-- C4 counterexample: the body -ff is not made of hexadecimal digits, yet
validate_hex_color accepts it, because int(-, 16) accepts a sign; so
validation does not accept only strings whose body consists of 3 or 6 hex
digits. -/
theorem validate_hex_color_counterexample :
    validate_hex_color ("#-ff") = true ∧ strictHexColor ("#-ff") = false :=
  ⟨by decide, by decide⟩

/-- C4 amended: validation accepts every string starting with a hash sign
followed by exactly 3 or 6 hex digits, but is more liberal than the claim: it
first strips surrounding whitespace, and the 3- or 6-character body only has
to be accepted by Python int(-, 16), which also admits a sign, a 0x prefix,
underscores and inner leading whitespace.  When validation rejects the
stripped entry, generate surfaces an input error and does not invoke palette
generation; when it accepts, generation is invoked with the stripped code. -/
theorem validate_hex_color_amended (s : String) :
    (strictHexColor s = true → validate_hex_color s = true) ∧
    (validate_hex_color s = true →
      ∃ body, pyStrip s.toList = '#' :: body ∧ (body.length = 3 ∨ body.length = 6) ∧
        (pyInt16? body).isSome = true) ∧
    (validate_hex_color (pyStripStr s) = false → generate_hex_branch s = none) ∧
    (validate_hex_color (pyStripStr s) = true → generate_hex_branch s = some (pyStripStr s)) := by
  refine ⟨?_, ?_, ?_, ?_⟩
  · intro h
    unfold strictHexColor at h
    cases hl : s.toList with
    | nil => rw [hl] at h; exact absurd h (by decide)
    | cons c body =>
      rw [hl] at h
      simp only [strictHexCore] at h
      simp only [Bool.and_eq_true, decide_eq_true_eq, Bool.or_eq_true, List.all_eq_true] at h
      obtain ⟨⟨hc, hlen⟩, hhex⟩ := h
      have hnos : ∀ d ∈ s.toList, isPySpace d = false := by
        intro d hd
        rw [hl] at hd
        rcases List.mem_cons.mp hd with h1 | h2
        · rw [h1, hc]; rfl
        · exact hexDigit_not_space (hhex d h2)
      unfold validate_hex_color
      rw [pyStrip_of_noSpace s.toList hnos, hl, hc]
      have hbody : (pyInt16? body).isSome = true := by
        refine pyInt16_all body ?_ hhex
        rcases hlen with h3 | h6
        · intro hnil; rw [hnil] at h3; simp at h3
        · intro hnil; rw [hnil] at h6; simp at h6
      simp only [validateCore]
      rcases hlen with h3 | h6
      · simp [hbody, h3]
      · simp [hbody, h6]
  · intro h
    unfold validate_hex_color at h
    cases hl : pyStrip s.toList with
    | nil => rw [hl] at h; exact absurd h (by decide)
    | cons c body =>
      rw [hl] at h
      simp only [validateCore] at h
      simp only [Bool.and_eq_true, decide_eq_true_eq, Bool.or_eq_true] at h
      obtain ⟨⟨hc, hlen⟩, hint⟩ := h
      exact ⟨body, by rw [← hc], hlen, hint⟩
  · intro h
    unfold generate_hex_branch
    rw [if_neg (by rw [show validate_hex_color (pyStripStr s) = false from h]; exact Bool.false_ne_true)]
  · intro h
    unfold generate_hex_branch
    rw [if_pos h]

/-- C4 witness: concrete instances of each implication of the amended claim:
a strict hex color is accepted; an accepted non-strict 6-character body
(0xffff); a rejected entry produces an input error; an accepted entry reaches
generation with the stripped code. -/
theorem validate_hex_color_amended_witness :
    validate_hex_color ("#3498db") = true ∧
    (∃ body, pyStrip ("#0xffff").toList = '#' :: body ∧
      (body.length = 3 ∨ body.length = 6) ∧ (pyInt16? body).isSome = true) ∧
    generate_hex_branch ("zz") = none ∧
    generate_hex_branch (" #fff ") = some (pyStripStr (" #fff ")) :=
  ⟨(validate_hex_color_amended ("#3498db")).1 (by decide),
    (validate_hex_color_amended ("#0xffff")).2.1 (by decide),
    (validate_hex_color_amended ("zz")).2.2.1 (by decide),
    (validate_hex_color_amended (" #fff ")).2.2.2 (by decide)⟩

/-- C5: the shared hex_to_rgb raises (none) on every 3-digit shorthand such as
abc or fff, because the slice 4:6 of a 3-character body is empty and
int(-, 16) of an empty string raises ValueError, even though
validate_hex_color deliberately admits 3-digit bodies; a full 6-digit input
parses normally.  This exhibits the code bug behind claim C5. -/
theorem hex_to_rgb_shorthand_fails :
    hex_to_rgb ("#abc") = none ∧ hex_to_rgb ("#fff") = none ∧
    validate_hex_color ("#abc") = true ∧ hex_to_rgb ("#aabbcc") = some (170, 187, 204) :=
  ⟨by decide, by decide, by decide, by decide⟩

/-- Channel-range invariant of the Color data model: all three channels lie
in 0..255. -/
def inColorRange (rgb : ℤ × ℤ × ℤ) : Prop :=
  0 ≤ rgb.1 ∧ rgb.1 ≤ 255 ∧ 0 ≤ rgb.2.1 ∧ rgb.2.1 ≤ 255 ∧ 0 ≤ rgb.2.2 ∧ rgb.2.2 ≤ 255

/-- ColorAdjusterDialog.apply_warmth (color_adjuster.py lines 141-155):
positive warmth shifts towards red and orange, non-positive warmth towards
blue; each shifted channel is truncated with int() and clamped on one side. -/
def apply_warmth (rgb : ℤ × ℤ × ℤ) (warmth : ℚ) : ℤ × ℤ × ℤ :=
  if warmth > 0 then
    (min 255 (pyint ((rgb.1 : ℚ) + warmth * 2)),
     min 255 (pyint ((rgb.2.1 : ℚ) + warmth * (1 / 2))),
     max 0 (pyint ((rgb.2.2 : ℚ) - warmth * (1 / 2))))
  else
    (max 0 (pyint ((rgb.1 : ℚ) + warmth * (1 / 2))),
     max 0 (pyint ((rgb.2.1 : ℚ) + warmth * (1 / 2))),
     min 255 (pyint ((rgb.2.2 : ℚ) - warmth * 2)))

/-- ColorAdjusterDialog.apply_contrast (color_adjuster.py lines 157-168):
expand or compress the distance from mid-gray 128, truncate with int(), then
clamp each channel to 0..255 on both sides. -/
def apply_contrast (rgb : ℤ × ℤ × ℤ) (contrast : ℚ) : ℤ × ℤ × ℤ :=
  (max 0 (min 255 (pyint (128 + ((rgb.1 : ℚ) - 128) * (1 + contrast)))),
   max 0 (min 255 (pyint (128 + ((rgb.2.1 : ℚ) - 128) * (1 + contrast)))),
   max 0 (min 255 (pyint (128 + ((rgb.2.2 : ℚ) - 128) * (1 + contrast)))))

theorem pyint_nonneg {x : ℚ} (h : 0 ≤ x) : 0 ≤ pyint x := by
  unfold pyint
  rw [if_pos h]
  exact Int.le_floor.mpr (by exact_mod_cast h)

theorem pyint_le_of_le {x : ℚ} {n : ℤ} (hn : 0 ≤ n) (h : x ≤ (n : ℚ)) : pyint x ≤ n := by
  unfold pyint
  split
  · calc ⌊x⌋ ≤ ⌊(n : ℚ)⌋ := Int.floor_le_floor h
      _ = n := Int.floor_intCast n
  · have hx : x ≤ 0 := le_of_lt (lt_of_not_ge (by assumption))
    calc ⌈x⌉ ≤ 0 := Int.ceil_le.mpr (by exact_mod_cast hx)
      _ ≤ n := hn

/-- C7: apply_warmth and apply_contrast preserve the Color range invariant:
whenever the input channels are all in 0..255, every output channel is again
in 0..255, for every rational warmth and contrast value. -/
theorem adjustments_preserve_range (rgb : ℤ × ℤ × ℤ) (warmth contrast : ℚ)
    (h : inColorRange rgb) :
    inColorRange (apply_warmth rgb warmth) ∧ inColorRange (apply_contrast rgb contrast) := by
  obtain ⟨hr0, hr1, hg0, hg1, hb0, hb1⟩ := h
  have hr0q : (0 : ℚ) ≤ (rgb.1 : ℚ) := by exact_mod_cast hr0
  have hr1q : (rgb.1 : ℚ) ≤ 255 := by exact_mod_cast hr1
  have hg0q : (0 : ℚ) ≤ (rgb.2.1 : ℚ) := by exact_mod_cast hg0
  have hg1q : (rgb.2.1 : ℚ) ≤ 255 := by exact_mod_cast hg1
  have hb0q : (0 : ℚ) ≤ (rgb.2.2 : ℚ) := by exact_mod_cast hb0
  have hb1q : (rgb.2.2 : ℚ) ≤ 255 := by exact_mod_cast hb1
  constructor
  · unfold apply_warmth
    split
    · rename_i hw
      refine ⟨?_, min_le_left _ _, ?_, min_le_left _ _, le_max_left _ _, ?_⟩
      · exact le_min (by norm_num) (pyint_nonneg (by linarith))
      · exact le_min (by norm_num) (pyint_nonneg (by linarith))
      · exact max_le (by norm_num) (pyint_le_of_le (by norm_num) (by linarith))
    · rename_i hw
      have hw0 : warmth ≤ 0 := le_of_not_lt hw
      refine ⟨le_max_left _ _, ?_, le_max_left _ _, ?_, ?_, min_le_left _ _⟩
      · exact max_le (by norm_num) (pyint_le_of_le (by norm_num) (by linarith))
      · exact max_le (by norm_num) (pyint_le_of_le (by norm_num) (by linarith))
      · exact le_min (by norm_num) (pyint_nonneg (by linarith))
  · unfold apply_contrast
    refine ⟨le_max_left _ _, ?_, le_max_left _ _, ?_, le_max_left _ _, ?_⟩ <;>
      exact max_le (by norm_num) (le_trans (min_le_left _ _) (by norm_num))

/-- C7 witness: range preservation at the concrete color (10, 200, 30) with
warmth 7/2 and contrast -2. -/
theorem adjustments_preserve_range_witness :
    inColorRange ((10 : ℤ), (200 : ℤ), (30 : ℤ)) ∧
    (inColorRange (apply_warmth (10, 200, 30) (7 / 2)) ∧
      inColorRange (apply_contrast (10, 200, 30) (-2))) :=
  ⟨⟨by norm_num, by norm_num, by norm_num, by norm_num, by norm_num, by norm_num⟩,
    adjustments_preserve_range (10, 200, 30) (7 / 2) (-2)
      ⟨by norm_num, by norm_num, by norm_num, by norm_num, by norm_num, by norm_num⟩⟩

/-- Cluster count for image mode (main.py line 2630): k = min(5, max(1, approx)),
where approx is the approximate distinct-color count of the image. -/
def image_mode_k (approx : ℤ) : ℤ := min 5 (max 1 approx)

/-- C9: for every integer approximate color count, the cluster count passed to
extract_main_colors is a positive integer (at least 1), at most 5, and hence
within the UI limit of at most 10. -/
theorem image_mode_k_bounds (approx : ℤ) :
    1 ≤ image_mode_k approx ∧ image_mode_k approx ≤ 5 ∧ image_mode_k approx ≤ 10 := by
  refine ⟨le_min (by norm_num) (le_max_left _ _), min_le_left _ _,
    le_trans (min_le_left _ _) (by norm_num)⟩

theorem charOfNat_toNat (n : ℕ) (h : n.isValidChar) : (Char.ofNat n).toNat = n := by
  simp [Char.ofNat, h, Char.toNat, Char.ofNatAux, UInt32.toNat, BitVec.toNat_ofNatLt]

/-- Python str.upper() restricted to ASCII: lowercase letters are shifted down
by 32, everything else is unchanged. -/
def pyToUpper (c : Char) : Char :=
  if 97 ≤ c.toNat ∧ c.toNat ≤ 122 then Char.ofNat (c.toNat - 32) else c

/-- Python text.split over the newline separator: empty pieces are kept. -/
def splitNL : List Char → List (List Char)
  | [] => [[]]
  | c :: rest =>
    if c = '\n' then [] :: splitNL rest
    else
      match splitNL rest with
      | [] => [[c]]
      | line :: more => (c :: line) :: more

/-- re.findall of the hex color pattern (a hash sign followed by exactly six
hex digits) on one line: left-to-right non-overlapping scan.  Written with
explicit fuel so that it is structurally recursive; fuel equal to the length
of the list always suffices since every step consumes at least one
character. -/
def findHex6Aux : ℕ → List Char → List (List Char)
  | 0, _ => []
  | _ + 1, [] => []
  | fuel + 1, c :: rest =>
    if c = '#' ∧ (rest.take 6).length = 6 ∧ (rest.take 6).all isHexDigitChar then
      (c :: rest.take 6) :: findHex6Aux fuel (rest.drop 6)
    else findHex6Aux fuel rest

/-- All matches of the hex color pattern on one line. -/
def findHex6 (l : List Char) : List (List Char) := findHex6Aux l.length l

/-- One line of AIColorRecommender._parse_response (ai_color_recommender.py
lines 99-106): find all hex color matches; if there is at least one and at
least expected_colors of them, keep the first expected_colors, uppercased. -/
def parseLine (expected : ℕ) (line : List Char) : Option (List String) :=
  if findHex6 line ≠ [] ∧ expected ≤ (findHex6 line).length then
    some (((findHex6 line).take expected).map (fun m => (m.map pyToUpper).asString))
  else none

/-- AIColorRecommender._parse_response (ai_color_recommender.py lines 90-108):
split the response into lines and turn every line with enough matches into a
palette. -/
def parse_response (text : String) (expected_colors : ℕ) : List (List String) :=
  (splitNL text.toList).filterMap (parseLine expected_colors)

/-- Uppercase hexadecimal digit (the digits 0-9 and the letters A-F). -/
def isUpperHexDigit (d : Char) : Bool :=
  (48 ≤ d.toNat && d.toNat ≤ 57) || (65 ≤ d.toNat && d.toNat ≤ 70)

/-- Output format asserted by claim C8: a hash sign followed by exactly six
uppercase hexadecimal digits. -/
def isUpperHexColor (s : String) : Bool :=
  match s.toList with
  | c :: body => (c = '#') && (body.length = 6) && body.all isUpperHexDigit
  | [] => false

theorem upperHexDigit_of_hexDigit {c : Char} (h : isHexDigitChar c = true) :
    isUpperHexDigit (pyToUpper c) = true := by
  have hr := isHexDigitChar_toNat h
  unfold pyToUpper
  split
  · rename_i hlc
    have hv : (c.toNat - 32).isValidChar := Or.inl (by omega)
    unfold isUpperHexDigit
    rw [charOfNat_toNat _ hv]
    simp only [Bool.or_eq_true, Bool.and_eq_true, decide_eq_true_eq]
    omega
  · rename_i hnlc
    unfold isUpperHexDigit
    simp only [Bool.or_eq_true, Bool.and_eq_true, decide_eq_true_eq]
    omega

theorem findHex6Aux_shape : ∀ (fuel : ℕ) (l m : List Char), m ∈ findHex6Aux fuel l →
    m.length = 7 ∧ ∃ ds, m = '#' :: ds ∧ ds.length = 6 ∧ ∀ c ∈ ds, isHexDigitChar c = true := by
  intro fuel
  induction fuel with
  | zero => intro l m hm; simp [findHex6Aux] at hm
  | succ f ih =>
    intro l m hm
    cases l with
    | nil => simp [findHex6Aux] at hm
    | cons c rest =>
      unfold findHex6Aux at hm
      split at hm
      · rename_i hcond
        obtain ⟨hc, hlen, hall⟩ := hcond
        rcases List.mem_cons.mp hm with he | hm2
        · refine ⟨by rw [he]; simp [hlen], rest.take 6, by rw [he, hc], hlen, ?_⟩
          intro d hd
          exact List.all_eq_true.mp hall d hd
        · exact ih _ _ hm2
      · exact ih _ _ hm

theorem upperHexColor_of_match (ds : List Char) (hlen : ds.length = 6)
    (hall : ∀ c ∈ ds, isHexDigitChar c = true) :
    isUpperHexColor ((('#' :: ds).map pyToUpper).asString) = true := by
  unfold isUpperHexColor
  rw [toList_asString]
  simp only [List.map_cons]
  rw [show pyToUpper '#' = '#' from rfl]
  simp only [Bool.and_eq_true, decide_eq_true_eq, List.length_map, List.all_eq_true,
    List.mem_map]
  refine ⟨⟨trivial, hlen⟩, ?_⟩
  rintro d ⟨c, hc, rfl⟩
  exact upperHexDigit_of_hexDigit (hall c hc)

/-- C8: every palette returned by the AI response parser contains exactly the
requested number of colors, and every entry is a hash-prefixed string of six
uppercase hexadecimal digits, for every input text and every requested
count. -/
theorem parse_response_format (text : String) (expected_colors : ℕ)
    (p : List String) (hp : p ∈ parse_response text expected_colors) :
    p.length = expected_colors ∧ ∀ s ∈ p, isUpperHexColor s = true := by
  obtain ⟨line, _, hsome⟩ := List.mem_filterMap.mp hp
  unfold parseLine at hsome
  split at hsome
  · rename_i hcond
    obtain ⟨_, hlen⟩ := hcond
    have hp2 := (Option.some.inj hsome).symm
    subst hp2
    constructor
    · rw [List.length_map, List.length_take]
      omega
    · intro s hs
      obtain ⟨m, hm, hms⟩ := List.mem_map.mp hs
      have hm2 : m ∈ findHex6 line := List.mem_of_mem_take hm
      obtain ⟨_, ds, hds, hds6, hdsall⟩ := findHex6Aux_shape line.length line m hm2
      rw [← hms, hds]
      exact upperHexColor_of_match ds hds6 hdsall
  · exact absurd hsome (by simp)

/-- C8 witness: parsing a concrete two-line response with requested count 2:
the first line has three matches (so only the first two are kept, uppercased)
and the second line has none (so it yields no palette). -/
theorem parse_response_format_witness :
    ["#AABBCC", "#DDEE11"] ∈ parse_response ("x #aabbcc,#ddee11,#123456\nno colors here") 2 ∧
    ((["#AABBCC", "#DDEE11"] : List String).length = 2 ∧
      ∀ s ∈ (["#AABBCC", "#DDEE11"] : List String), isUpperHexColor s = true) :=
  ⟨by decide,
    parse_response_format ("x #aabbcc,#ddee11,#123456\nno colors here") 2
      (["#AABBCC", "#DDEE11"]) (by decide)⟩

/-- ImageRecolorer.get_brightness (image_recolorer.py lines 25-29): perceived
brightness 0.299 r + 0.587 g + 0.114 b, as an exact rational. -/
def get_brightness (rgb : ℤ × ℤ × ℤ) : ℚ :=
  (299 / 1000) * (rgb.1 : ℚ) + (587 / 1000) * (rgb.2.1 : ℚ) + (114 / 1000) * (rgb.2.2 : ℚ)

/-- The (color, brightness) pair list built by the loop of
sort_palette_by_brightness; none if hex_to_rgb raises on some entry. -/
def pairBrightness : List String → Option (List (String × ℚ))
  | [] => some []
  | s :: rest =>
    match hex_to_rgb s with
    | none => none
    | some rgb => (pairBrightness rest).map (fun ps => (s, get_brightness rgb) :: ps)

/-- ImageRecolorer.sort_palette_by_brightness (image_recolorer.py lines
31-41): build the (color, brightness) pairs, sort them by brightness in
descending order (Python list.sort with reverse=True is a stable descending
sort, modelled by the stable insertionSort under the greater-or-equal
relation on the key), and return the colors. -/
def sort_palette_by_brightness (palette_hex_colors : List String) : Option (List String) :=
  (pairBrightness palette_hex_colors).map
    (fun ps => (List.insertionSort (fun p q => p.2 ≥ q.2) ps).map Prod.fst)

/-- Brightness of a hex color string (default 0 on a malformed string; the
sort only ever sees strings on which hex_to_rgb succeeds). -/
def brightnessOfHex (s : String) : ℚ := ((hex_to_rgb s).map get_brightness).getD 0

theorem pairBrightness_map_fst : ∀ (l : List String) (ps : List (String × ℚ)),
    pairBrightness l = some ps → ps.map Prod.fst = l := by
  intro l
  induction l with
  | nil =>
    intro ps hps
    simp only [pairBrightness] at hps
    rw [← Option.some.inj hps]
    rfl
  | cons s rest ih =>
    intro ps hps
    simp only [pairBrightness] at hps
    cases hrgb : hex_to_rgb s with
    | none => rw [hrgb] at hps; exact absurd hps (by simp)
    | some rgb =>
      rw [hrgb] at hps
      obtain ⟨ps0, hps0, hcons⟩ := Option.map_eq_some'.mp hps
      rw [← hcons]
      simp only [List.map_cons]
      rw [ih ps0 hps0]

theorem pairBrightness_snd : ∀ (l : List String) (ps : List (String × ℚ)),
    pairBrightness l = some ps → ∀ p ∈ ps, p.2 = brightnessOfHex p.1 := by
  intro l
  induction l with
  | nil =>
    intro ps hps p hp
    simp only [pairBrightness] at hps
    rw [← Option.some.inj hps] at hp
    exact absurd hp (by simp)
  | cons s rest ih =>
    intro ps hps p hp
    simp only [pairBrightness] at hps
    cases hrgb : hex_to_rgb s with
    | none => rw [hrgb] at hps; exact absurd hps (by simp)
    | some rgb =>
      rw [hrgb] at hps
      obtain ⟨ps0, hps0, hcons⟩ := Option.map_eq_some'.mp hps
      rw [← hcons] at hp
      rcases List.mem_cons.mp hp with he | hmem
      · rw [he]
        unfold brightnessOfHex
        rw [hrgb]
        rfl
      · exact ih ps0 hps0 p hmem

/-- C10: sort_palette_by_brightness returns a permutation of its input list
(same multiset of colors, no color added or lost), ordered by non-increasing
perceived brightness of the corresponding RGB triples. -/
theorem sort_palette_spec (l res : List String)
    (h : sort_palette_by_brightness l = some res) :
    res.Perm l ∧ res.Pairwise (fun a b => brightnessOfHex a ≥ brightnessOfHex b) := by
  unfold sort_palette_by_brightness at h
  obtain ⟨ps, hps, hres⟩ := Option.map_eq_some'.mp h
  have hfst := pairBrightness_map_fst l ps hps
  have hsnd := pairBrightness_snd l ps hps
  haveI htot : IsTotal (String × ℚ) (fun p q => p.2 ≥ q.2) := ⟨fun p q => le_total q.2 p.2⟩
  haveI htr : IsTrans (String × ℚ) (fun p q => p.2 ≥ q.2) := ⟨fun _ _ _ h1 h2 => le_trans h2 h1⟩
  have hperm : (List.insertionSort (fun p q : String × ℚ => p.2 ≥ q.2) ps).Perm ps :=
    List.perm_insertionSort _ ps
  constructor
  · rw [← hres]
    have := hperm.map Prod.fst
    rw [hfst] at this
    exact this
  · have hsorted : (List.insertionSort (fun p q : String × ℚ => p.2 ≥ q.2) ps).Pairwise
        (fun p q => p.2 ≥ q.2) := List.sorted_insertionSort _ ps
    rw [← hres, List.pairwise_map]
    refine List.Pairwise.imp_of_mem ?_ hsorted
    intro p q hp hq hrel
    rw [← hsnd p (hperm.subset hp), ← hsnd q (hperm.subset hq)]
    exact hrel

/-- C10 witness: the sort at a concrete one-element palette. -/
theorem sort_palette_spec_witness :
    sort_palette_by_brightness ["#aabbcc"] = some ["#aabbcc"] ∧
    ((["#aabbcc"] : List String).Perm ["#aabbcc"] ∧
      (["#aabbcc"] : List String).Pairwise (fun a b => brightnessOfHex a ≥ brightnessOfHex b)) :=
  ⟨rfl, sort_palette_spec ["#aabbcc"] ["#aabbcc"] rfl⟩
